import Mathlib

/-!
Shallow embedding of `otree::ObservableTree` (include/otree/ObservableTree.h)
and verification of its specification.

Modelling conventions:
* `Node` is the abstract document value type, `E` the type of user exceptions
  thrown by adapter operations or callbacks.
* A C++ callback (`SlotType = std::function<void(const Node&, const Node&)>`)
  is `Option (CbF Node E)`: `none` is an empty `std::function`; a stored
  callback runs as `Node → Node → Except E Unit` (it may throw).
* A heap-allocated slot (`std::unique_ptr<SlotType>`) is
  `Option (SlotVal Node E)`: `none` is a null pointer.  Slot ids
  (`SlotIDType`, pointer addresses in C++) are modelled as fresh naturals
  drawn from a counter.
* Undefined behaviour (erasing `end()`, dereferencing a null slot pointer)
  and `std::bad_function_call` are modelled as the error `Err.fault`;
  user exceptions are `Err.exn e`.
* Dispatch is instrumented with an event trace (which slot of which path
  registry was invoked, with which pair of values) and the diff with a log
  of the equality queries the adapter was asked; the instrumentation only
  records what the C++ control flow does, it never alters it.
-/

namespace OTree

/-- Errors escaping a diff or dispatch: a user exception from an adapter
operation or a callback (`exn`), or a crash / undefined behaviour (`fault`). -/
inductive Err (E : Type) where
  | exn : E → Err E
  | fault : Err E
deriving DecidableEq

/-- Callback body: receives (oldValue, newValue), may throw a user exception. -/
def CbF (Node E : Type) : Type := Node → Node → Except E Unit

/-- Record of one callback invocation: the registry's path, the slot id of the
invoked callback and the (oldValue, newValue) pair it received. -/
structure Event (Node : Type) where
  path : List String
  slot : Nat
  old : Node
  new : Node
deriving DecidableEq

/-- A stored slot: its id (the `SlotType*` address in C++) and the contained
`std::function`, which is empty iff `fn = none`. -/
structure SlotVal (Node E : Type) where
  id : Nat
  fn : Option (CbF Node E)

/-- `sl.get() == slotID` where `sl : std::unique_ptr<SlotType>`; a null
pointer never equals a (non-null) slot id. -/
def slotPtrMatches {Node E : Type} (x : Option (SlotVal Node E)) (id : Nat) : Bool :=
  match x with
  | some sv => sv.id == id
  | none => false

/-- Internal storage of a `ModificationSignal`: `SingleImpl` holds at most one
slot, `MultiImpl` a list of slots. -/
inductive Impl (Node E : Type) where
  | single : Option (SlotVal Node E) → Impl Node E
  | multi : List (Option (SlotVal Node E)) → Impl Node E

/-- A `ModificationSignal`: the nullable `impl_` pointer plus an identity tag
`sid` standing for the C++ object identity (used to model `weak_ptr`
resolution of cancellation handles). -/
structure Signal (Node E : Type) where
  sid : Nat
  impl : Option (Impl Node E)

namespace Impl

variable {Node E : Type}

/-- `ImplIF::type() == ImplType::Single`. -/
def isSingle : Impl Node E → Bool
  | single _ => true
  | multi _ => false

/-- `SingleImpl::connected` is `!!slot_`; `MultiImpl::connected` is
`!slots_.empty()`. -/
def connected : Impl Node E → Bool
  | single o => o.isSome
  | multi l => !l.isEmpty

/-- `stealSlots`: `SingleImpl` pushes its (possibly null) slot pointer into a
fresh list; `MultiImpl` moves its list out. -/
def stealSlots : Impl Node E → List (Option (SlotVal Node E))
  | single o => [o]
  | multi l => l

/-- `ImplIF::connect`.  `SingleImpl` overwrites its slot unconditionally and
returns the new pointer; `MultiImpl` appends only a non-empty callback
(`if (sl)`), returning `SlotIDInvalid` (`none`) otherwise.  `c` is the fresh
address for the allocation. -/
def connect (i : Impl Node E) (c : Nat) (sl : Option (CbF Node E)) :
    Impl Node E × Option Nat :=
  match i with
  | single _ => (single (some ⟨c, sl⟩), some c)
  | multi l =>
    match sl with
    | some _ => (multi (l ++ [some ⟨c, sl⟩]), some c)
    | none => (multi l, none)

end Impl

/-- `MultiImpl::disconnect`: erase the result of
`find_if(slots_, sl.get() == slotID)`.  The source never compares the
iterator against `end()`, so an absent id means `slots_.erase(slots_.end())`,
which is undefined behaviour — modelled as `none`. -/
def multiDisconnect {Node E : Type} (l : List (Option (SlotVal Node E))) (id : Nat) :
    Option (List (Option (SlotVal Node E))) :=
  match l with
  | [] => none
  | x :: rest =>
    if slotPtrMatches x id then some rest
    else (multiDisconnect rest id).map (fun r => x :: r)

namespace Signal

variable {Node E : Type}

/-- `ModificationSignal::connected`. -/
def connected (s : Signal Node E) : Bool :=
  match s.impl with
  | none => false
  | some i => i.connected

/-- `ModificationSignal::connect`.  The outer `if (sl)` guard skips everything
for an empty callback; otherwise a missing impl becomes a fresh `SingleImpl`,
and a connected `SingleImpl` is upgraded to a `MultiImpl` seeded with the
stolen slot list before the new slot is connected.  `c` is the fresh slot id;
the returned id is `none` exactly when the C++ code returns the inert
default-constructed `Connection`. -/
def connect (s : Signal Node E) (sl : Option (CbF Node E)) (c : Nat) :
    Signal Node E × Option Nat :=
  match sl with
  | none => (s, none)
  | some _ =>
    let impl0 : Impl Node E :=
      match s.impl with
      | none => Impl.single none
      | some i => if i.isSingle && i.connected then Impl.multi i.stealSlots else i
    let r := impl0.connect c sl
    ({ s with impl := some r.1 }, r.2)

/-- `ModificationSignal::disconnect(slotID)`: no-op when `impl_` is null;
`SingleImpl` resets its slot only on a pointer match; `MultiImpl` may hit
undefined behaviour (`none`) on an absent id. -/
def disconnect (s : Signal Node E) (id : Nat) : Option (Signal Node E) :=
  match s.impl with
  | none => some s
  | some (.single o) =>
    some { s with impl := some (.single (if slotPtrMatches o id then none else o)) }
  | some (.multi l) =>
    (multiDisconnect l id).map (fun l' => { s with impl := some (.multi l') })

end Signal

/-- `MultiImpl::onChanged`: invoke every stored slot in list order,
`(*sl)(oldNode, newNode)`.  A null slot pointer or an empty function is a
fault; a throwing callback aborts delivery to the remaining slots.  Each
actual invocation is recorded as an event tagged with the registry's path. -/
def slotsFire {Node E : Type} (p : List String) (o n : Node) :
    List (Option (SlotVal Node E)) → Except (Err E) Unit × List (Event Node)
  | [] => (.ok (), [])
  | x :: rest =>
    match x with
    | none => (.error .fault, [])
    | some sv =>
      match sv.fn with
      | none => (.error .fault, [])
      | some f =>
        match f o n with
        | .ok _ =>
          let r := slotsFire p o n rest
          (r.1, ⟨p, sv.id, o, n⟩ :: r.2)
        | .error e => (.error (.exn e), [⟨p, sv.id, o, n⟩])

/-- `SingleImpl::onChanged`: `if (slot_ && *slot_) (*slot_)(old, new)` —
both a null slot pointer and an empty function are silently skipped. -/
def singleFire {Node E : Type} (p : List String) (o n : Node)
    (x : Option (SlotVal Node E)) : Except (Err E) Unit × List (Event Node) :=
  match x with
  | none => (.ok (), [])
  | some sv =>
    match sv.fn with
    | none => (.ok (), [])
    | some f =>
      match f o n with
      | .ok _ => (.ok (), [⟨p, sv.id, o, n⟩])
      | .error e => (.error (.exn e), [⟨p, sv.id, o, n⟩])

/-- `ModificationSignal::operator()`: dispatch through `impl_` when present. -/
def Signal.fire {Node E : Type} (s : Signal Node E) (p : List String) (o n : Node) :
    Except (Err E) Unit × List (Event Node) :=
  match s.impl with
  | none => (.ok (), [])
  | some (.single x) => singleFire p o n x
  | some (.multi l) => slotsFire p o n l

/-- The document adapter (`TraitType`), abstract: per-segment extraction,
whole-path extraction, in-place path write, value equality and the empty
test.  `get`, `getPath` and `equal` may throw user exceptions; `empty` is a
pure predicate and `setPath` may be an unimplemented identity. -/
structure Trait (Node E : Type) where
  get : Node → String → Except E Node
  getPath : Node → List String → Except E Node
  setPath : Node → List String → Node → Node
  equal : Node → Node → Except E Bool
  empty : Node → Bool

/-- A `SignalMgr` is its `std::map<KeyType, MySignalAndChild>` rendered as an
association list sorted by key (the map's iteration order).  A null
`child_` pointer and a present-but-empty child map behave identically in
every operation of the source, so both are encoded as `nil`. -/
inductive SignalMgr (Node E : Type) where
  | nil : SignalMgr Node E
  | cons (k : String) (sig : Option (Signal Node E)) (child : SignalMgr Node E)
      (rest : SignalMgr Node E) : SignalMgr Node E

namespace SignalMgr

variable {Node E : Type}

/-- Fresh branch built when `signalsMap_[key]` default-inserts a new entry and
the recursion creates the chain of intermediate nodes down to the terminal
node, whose signal is freshly allocated with identity `c`. -/
def newBranch (k : String) (ks : List String) (c : Nat) (rest : SignalMgr Node E) :
    SignalMgr Node E × Signal Node E × Nat :=
  match ks with
  | [] => (.cons k (some ⟨c, none⟩) .nil rest, ⟨c, none⟩, c + 1)
  | k2 :: ks2 =>
    let r := newBranch k2 ks2 c .nil
    (.cons k none r.1 rest, r.2)

/-- `SignalMgr::createSignal(itFirstKey, itLastKey)`: walk / default-insert
entries along the keys (keeping the map sorted), create intermediate children
lazily, and return the terminal node's signal, allocating it (with fresh
identity drawn from `c`) if absent.  Returns the updated tree, the signal,
and the updated identity counter. -/
def createSignalGo (m : SignalMgr Node E) (k : String) (ks : List String) (c : Nat) :
    SignalMgr Node E × Signal Node E × Nat :=
  match m with
  | .nil => newBranch k ks c .nil
  | .cons k1 sig child rest =>
    if k = k1 then
      match ks with
      | [] =>
        match sig with
        | some s => (.cons k1 (some s) child rest, s, c)
        | none => (.cons k1 (some ⟨c, none⟩) child rest, ⟨c, none⟩, c + 1)
      | k2 :: ks2 =>
        let r := createSignalGo child k2 ks2 c
        (.cons k1 sig r.1 rest, r.2)
    else if k < k1 then
      newBranch k ks c (.cons k1 sig child rest)
    else
      let r := createSignalGo rest k ks c
      (.cons k1 sig child r.1, r.2)

/-- `SignalMgr::getSigNChild` followed by `signalPtr_` projection: resolve the
signal registered at exactly the given keys, without creating anything. -/
def getSignalGo (m : SignalMgr Node E) (k : String) (ks : List String) :
    Option (Signal Node E) :=
  match m with
  | .nil => none
  | .cons k1 sig child rest =>
    if k = k1 then
      match ks with
      | [] => sig
      | k2 :: ks2 => getSignalGo child k2 ks2
    else getSignalGo rest k ks

/-- `SignalMgr::getSignal(path)`: empty path resolves to no signal. -/
def getSignal (m : SignalMgr Node E) (p : List String) : Option (Signal Node E) :=
  match p with
  | [] => none
  | k :: ks => getSignalGo m k ks

/-- Write back an updated signal value at a path; model of the in-place
mutation a C++ caller performs through the `shared_ptr` stored in the map. -/
def setSignalAt (m : SignalMgr Node E) (k : String) (ks : List String)
    (s : Signal Node E) : SignalMgr Node E :=
  match m with
  | .nil => .nil
  | .cons k1 sig child rest =>
    if k = k1 then
      match ks with
      | [] => .cons k1 (some s) child rest
      | k2 :: ks2 => .cons k1 sig (setSignalAt child k2 ks2 s) rest
    else .cons k1 sig child (setSignalAt rest k ks s)

end SignalMgr

/-- Result of processing one `signalsMap_` entry after the recursion into its
subtree: updated signal slot of the entry, updated child, outcome, fired
events and logged equality queries. -/
def entryAfterSub {Node E : Type} (tr : Trait Node E) (sig : Option (Signal Node E))
    (pk : List String) (oldV newV : Node)
    (sout : SignalMgr Node E × Except (Err E) Bool × List (Event Node) × List (Node × Node)) :
    Option (Signal Node E) × SignalMgr Node E × Except (Err E) Bool ×
      List (Event Node) × List (Node × Node) :=
  match sout with
  | (child', r, evs, eqs) =>
    match r with
    | .error e => (sig, child', .error e, evs, eqs)
    | .ok true =>
      -- a deeper change implies this level changed: fire without comparing
      match sig with
      | some s =>
        match s.fire pk oldV newV with
        | (.ok _, fevs) => (some s, child', .ok true, evs ++ fevs, eqs)
        | (.error e, fevs) => (some s, child', .error e, evs ++ fevs, eqs)
      | none => (none, child', .ok true, evs, eqs)
    | .ok false =>
      match tr.equal oldV newV with
      | .error e => (sig, child', .error (.exn e), evs, eqs ++ [(oldV, newV)])
      | .ok eqv =>
        match sig with
        | none => (none, child', .ok (!eqv), evs, eqs ++ [(oldV, newV)])
        | some s =>
          if s.connected then
            if !eqv then
              match s.fire pk oldV newV with
              | (.ok _, fevs) => (some s, child', .ok (!eqv), evs ++ fevs, eqs ++ [(oldV, newV)])
              | (.error e, fevs) => (some s, child', .error e, evs ++ fevs, eqs ++ [(oldV, newV)])
            else (some s, child', .ok (!eqv), evs, eqs ++ [(oldV, newV)])
          else (none, child', .ok (!eqv), evs, eqs ++ [(oldV, newV)])

/-- The body of `SignalMgr::onChanged(oldNode, newNode)` without the node's
own empty-empty short-circuit: iterate the entries in map order; for each,
extract the two sub-values, recurse into the child (which applies its own
short-circuit), then fire / compare per `entryAfterSub`; exceptions abort the
iteration, leaving later entries untouched.  Returns the updated tree (the
else-branch may drop a disconnected signal), the `hasChanged` outcome, the
events in firing order and the equality-query log. -/
def onChangedGo {Node E : Type} (tr : Trait Node E) :
    SignalMgr Node E → List String → Node → Node →
      SignalMgr Node E × Except (Err E) Bool × List (Event Node) × List (Node × Node)
  | .nil, _, _, _ => (.nil, .ok false, [], [])
  | .cons k sig child rest, p, oldN, newN =>
    match tr.get oldN k with
    | .error e => (.cons k sig child rest, .error (.exn e), [], [])
    | .ok oldV =>
      match tr.get newN k with
      | .error e => (.cons k sig child rest, .error (.exn e), [], [])
      | .ok newV =>
        let sout :=
          if !tr.empty oldV || !tr.empty newV then onChangedGo tr child (p ++ [k]) oldV newV
          else (child, .ok false, [], [])
        match entryAfterSub tr sig (p ++ [k]) oldV newV sout with
        | (sig', child', .error e, evs, eqs) => (.cons k sig' child' rest, .error e, evs, eqs)
        | (sig', child', .ok b, evs, eqs) =>
          match onChangedGo tr rest p oldN newN with
          | (rest', .error e, evs2, eqs2) =>
            (.cons k sig' child' rest', .error e, evs ++ evs2, eqs ++ eqs2)
          | (rest', .ok b2, evs2, eqs2) =>
            (.cons k sig' child' rest', .ok (b || b2), evs ++ evs2, eqs ++ eqs2)

/-- `SignalMgr::onChanged(oldNode, newNode)`: if both nodes are adapter-empty
skip all children, else run the entry loop. -/
def SignalMgr.onChanged {Node E : Type} (tr : Trait Node E) (m : SignalMgr Node E)
    (p : List String) (oldN newN : Node) :
    SignalMgr Node E × Except (Err E) Bool × List (Event Node) × List (Node × Node) :=
  if !tr.empty oldN || !tr.empty newN then onChangedGo tr m p oldN newN
  else (m, .ok false, [], [])

/-- `SignalMgr::onChanged(path, oldData, newData)`: resolve the signal at
exactly `path`; absent signal is a no-op; otherwise fire it directly iff the
adapter reports the values unequal. -/
def SignalMgr.onChangedAt {Node E : Type} (tr : Trait Node E) (m : SignalMgr Node E)
    (p : List String) (oldD newD : Node) :
    Except (Err E) Bool × List (Event Node) :=
  match m.getSignal p with
  | none => (.ok false, [])
  | some s =>
    match tr.equal oldD newD with
    | .error e => (.error (.exn e), [])
    | .ok true => (.ok false, [])
    | .ok false =>
      match s.fire p oldD newD with
      | (.ok _, fevs) => (.ok true, fevs)
      | (.error e, fevs) => (.error e, fevs)

/-- `ObservableTree` state: the root `SignalMgr`, the current document, and
the two freshness counters standing for heap addresses (`slotc`) and signal
object identities (`sigc`). -/
structure ObservableTree (Node E : Type) where
  mgr : SignalMgr Node E
  root : Node
  slotc : Nat
  sigc : Nat

/-- A `ModificationSignal::Connection`: the weak back-reference to the signal
(modelled as the registration path plus the signal's identity tag, `none`
when the `weak_ptr` is empty) and the slot id (`none` when invalid). -/
structure Conn where
  sigRef : Option (List String × Nat)
  slotID : Option Nat

namespace ObservableTree

variable {Node E : Type}

/-- `ObservableTree::modificationSignal(path)`: under the lock, delegate to
`SignalMgr::createSignal`; an empty path yields no signal and touches
nothing. -/
def modificationSignal (st : ObservableTree Node E) (p : List String) :
    ObservableTree Node E × Option (Signal Node E) :=
  match p with
  | [] => (st, none)
  | k :: ks =>
    let r := st.mgr.createSignalGo k ks st.sigc
    ({ st with mgr := r.1, sigc := r.2.2 }, some r.2.1)

/-- Modelled from the spec: `ObservableDocument.registerAt(path, callback) ->
CancellationHandle` — the registration composite the spec assigns to the
document facade; the repository exposes only its two halves
(`modificationSignal` and `ModificationSignal::connect`, used together by
every caller), so the glue — resolving the signal, connecting, and treating
the empty-path null signal as an inert handle — follows the spec's words
"Empty path ⇒ inert handle". -/
def registerAt (st : ObservableTree Node E) (p : List String)
    (cb : Option (CbF Node E)) : ObservableTree Node E × Conn :=
  match p with
  | [] => (st, ⟨none, none⟩)
  | k :: ks =>
    let r := st.mgr.createSignalGo k ks st.sigc
    let s := r.2.1
    let cr := s.connect cb st.slotc
    let st' : ObservableTree Node E :=
      { st with mgr := (r.1).setSignalAt k ks cr.1, slotc := st.slotc + 1, sigc := r.2.2 }
    match cr.2 with
    | some id => (st', ⟨some (k :: ks, s.sid), some id⟩)
    | none => (st', ⟨none, none⟩)

/-- `Connection::disconnect`: nothing when the slot id is invalid; otherwise
lock the weak reference (the signal at the recorded path must still exist and
carry the recorded identity — else the registry is gone and it is a no-op)
and call `ModificationSignal::disconnect`, which may fault (`none`). -/
def cancel (st : ObservableTree Node E) (c : Conn) : Option (ObservableTree Node E) :=
  match c.slotID with
  | none => some st
  | some id =>
    match c.sigRef with
    | none => some st
    | some (p, sd) =>
      match p with
      | [] => some st
      | k :: ks =>
        match st.mgr.getSignalGo k ks with
        | none => some st
        | some s =>
          if s.sid = sd then
            (s.disconnect id).map (fun s' => { st with mgr := st.mgr.setSignalAt k ks s' })
          else some st

/-- `ObservableTree::set(newData)`: under the lock, run the full recursive
diff of the old root against `newData` first, then swap the root.  If the
diff aborts, the swap never happens and the error propagates; tree mutations
made by the diff before the abort persist. -/
def set (tr : Trait Node E) (st : ObservableTree Node E) (newData : Node) :
    ObservableTree Node E × Except (Err E) Unit × List (Event Node) :=
  match st.mgr.onChanged tr [] st.root newData with
  | (m', .ok _, evs, _) => ({ st with mgr := m', root := newData }, .ok (), evs)
  | (m', .error e, evs, _) => ({ st with mgr := m' }, .error e, evs)

/-- `ObservableTree::set(path, newNode)`: under the lock, extract the old
sub-value, run the path-targeted diff, then issue the adapter write.  Any
exception (from `getPath`, `equal` or a callback) skips the write. -/
def setAt (tr : Trait Node E) (st : ObservableTree Node E) (p : List String)
    (newNode : Node) : ObservableTree Node E × Except (Err E) Unit × List (Event Node) :=
  match tr.getPath st.root p with
  | .error e => (st, .error (.exn e), [])
  | .ok oldSub =>
    match st.mgr.onChangedAt tr p oldSub newNode with
    | (.ok _, evs) => ({ st with root := tr.setPath st.root p newNode }, .ok (), evs)
    | (.error e, evs) => (st, .error e, evs)

end ObservableTree

/-- Loop of `Path::toKeys`: `cur` is the segment accumulated between `istart`
and `it`; on a separator the segment is emitted unless its first character
(`*istart`, which is the separator itself when the segment is empty) is the
separator; the trailing segment is emitted after stripping one terminating
NUL, if it remains non-empty. -/
def toKeysGo (sep : Char) : List Char → List Char → List (List Char)
  | cur, [] =>
    if cur.isEmpty then []
    else
      let last := if cur.getLast? == some (Char.ofNat 0) then cur.dropLast else cur
      if last.isEmpty then [] else [last]
  | cur, ch :: rest =>
    if ch = sep then
      (if cur.headD ch ≠ sep then [cur] else []) ++ toKeysGo sep [] rest
    else toKeysGo sep (cur ++ [ch]) rest

/-- `Path::toKeys(path, sep)` over the characters of the raw string. -/
def toKeys (sep : Char) (s : List Char) : List (List Char) :=
  toKeysGo sep [] s

/-- Modelled from the spec: the naive full deep walk the empty-root
short-circuit is compared against — "comparing the extracted value at every
registered path": at each registered node extract both sub-values, recurse
into the whole subtree unconditionally, then fire that node's registry iff
this node's own extracted values compare unequal. -/
def specNaiveWalk {Node E : Type} (tr : Trait Node E) :
    SignalMgr Node E → List String → Node → Node →
      Except (Err E) Bool × List (Event Node)
  | .nil, _, _, _ => (.ok false, [])
  | .cons k sig child rest, p, a, b =>
    match tr.get a k with
    | .error e => (.error (.exn e), [])
    | .ok oldV =>
      match tr.get b k with
      | .error e => (.error (.exn e), [])
      | .ok newV =>
        match specNaiveWalk tr child (p ++ [k]) oldV newV with
        | (.error e, evs) => (.error e, evs)
        | (.ok bsub, evs) =>
          match tr.equal oldV newV with
          | .error e => (.error (.exn e), evs)
          | .ok eqv =>
            let fired :=
              if !eqv then
                match sig with
                | some s => s.fire (p ++ [k]) oldV newV
                | none => (.ok (), [])
              else (.ok (), [])
            match fired.1 with
            | .error e => (.error e, evs ++ fired.2)
            | .ok _ =>
              match specNaiveWalk tr rest p a b with
              | (.error e, evs2) => (.error e, evs ++ fired.2 ++ evs2)
              | (.ok b2, evs2) => (.ok (!eqv || bsub || b2), evs ++ fired.2 ++ evs2)

/-- One public operation on a `ModificationSignal` paired with its fresh-id
counter: a `connect` with an arbitrary (possibly empty) callback, or a
`disconnect` that completed without undefined behaviour. -/
inductive SigStep {Node E : Type} :
    Signal Node E × Nat → Signal Node E × Nat → Prop where
  | connect (s : Signal Node E) (c : Nat) (sl : Option (CbF Node E)) :
      SigStep (s, c) ((s.connect sl c).1, c + 1)
  | disconnect (s : Signal Node E) (c : Nat) (id : Nat) (s' : Signal Node E) :
      s.disconnect id = some s' → SigStep (s, c) (s', c)

/-- Signal states reachable from a freshly constructed `ModificationSignal`
(null `impl_`) by `connect` / `disconnect` calls. -/
inductive SigReachable {Node E : Type} : Signal Node E × Nat → Prop where
  | init (sd c : Nat) : SigReachable ((⟨sd, none⟩ : Signal Node E), c)
  | step {p q : Signal Node E × Nat} : SigReachable p → SigStep p q → SigReachable q

/-- Storage invariant of a signal: every slot pointer in Multi mode is
non-null and holds a non-empty function, and a slot present in Single mode
holds a non-empty function. -/
def SigGood {Node E : Type} (s : Signal Node E) : Prop :=
  (∀ l, s.impl = some (.multi l) → ∀ x ∈ l, ∃ sv f, x = some sv ∧ sv.fn = some f) ∧
  (∀ o sv, s.impl = some (.single o) → o = some sv → sv.fn.isSome)

/- ------------------------------------------------------------------ -/
/- Concrete fixtures used by scenario conjuncts and witnesses.        -/
/- ------------------------------------------------------------------ -/

/-- A callback that never throws. -/
def cbOk : CbF Nat String := fun _ _ => .ok ()

/-- Lookup table of a concrete two-version document for the diff scenario of
the spec (register at a/b, a/b/c and a/d; only the a/b/c value changes
between root 1 and root 2 while the a/d value stays 50). -/
def lutGet : Nat → String → Nat := fun n k =>
  match n, k with
  | 1, "a" => 10
  | 2, "a" => 20
  | 10, "b" => 30
  | 20, "b" => 31
  | 10, "d" => 50
  | 20, "d" => 50
  | 30, "c" => 100
  | 31, "c" => 101
  | _, _ => 0

/-- Adapter over the scenario lookup table. -/
def trFix : Trait Nat String where
  get := fun n k => .ok (lutGet n k)
  getPath := fun n _ => .ok n
  setPath := fun n _ _ => n
  equal := fun a b => .ok (a == b)
  empty := fun n => n == 0

/-- Registry tree of the scenario: registrations at a/b (slot 11),
a/b/c (slot 12) and a/d (slot 13), each a Single-mode registry. -/
def mgrFix : SignalMgr Nat String :=
  .cons "a" none
    (.cons "b" (some ⟨1, some (.single (some ⟨11, some cbOk⟩))⟩)
      (.cons "c" (some ⟨2, some (.single (some ⟨12, some cbOk⟩))⟩) .nil .nil)
      (.cons "d" (some ⟨3, some (.single (some ⟨13, some cbOk⟩))⟩) .nil .nil))
    .nil

/-- Identity-style adapter on naturals: the sub-value at any segment is the
value itself, equality is decidable equality, nothing is empty. -/
def trId : Trait Nat String where
  get := fun n _ => .ok n
  getPath := fun n _ => .ok n
  setPath := fun _ _ v => v
  equal := fun a b => .ok (a == b)
  empty := fun _ => false

/-- Adapter whose `equal` always throws, for exercising diff abort paths. -/
def trThrow : Trait Nat String where
  get := fun n _ => .ok n
  getPath := fun n _ => .ok n
  setPath := fun n _ _ => n
  equal := fun _ _ => .error "boom"
  empty := fun _ => false

/-- Adapter where every sub-value extraction yields the canonical empty value
0, and equality is decidable equality; empty values have only empty,
mutually equal sub-values. -/
def trZero : Trait Nat String where
  get := fun _ _ => .ok 0
  getPath := fun n _ => .ok n
  setPath := fun n _ _ => n
  equal := fun a b => .ok (a == b)
  empty := fun n => n == 0

/-- A registry tree with a single entry "x" holding a Single-mode registry
with one connected callback. -/
def mgr1 : SignalMgr Nat String :=
  .cons "x" (some ⟨0, some (.single (some ⟨0, some cbOk⟩))⟩) .nil .nil

/- ------------------------------------------------------------------ -/
/- Supporting lemmas.                                                 -/
/- ------------------------------------------------------------------ -/

theorem toKeysGo_ne_nil (sep : Char) (s : List Char) :
    ∀ (cur : List Char), ∀ k ∈ toKeysGo sep cur s, k ≠ [] := by
  induction s with
  | nil =>
    intro cur k hk
    simp only [toKeysGo] at hk
    split at hk
    · simp at hk
    · split at hk <;> (try split at hk) <;> simp_all [List.isEmpty_iff]
  | cons ch rest ih =>
    intro cur k hk
    simp only [toKeysGo] at hk
    split at hk
    · rcases List.mem_append.1 hk with h | h
      · rename_i hsep
        subst hsep
        split at h
        · rename_i hhead
          simp only [List.mem_singleton] at h
          subst h
          intro hnil
          subst hnil
          simp at hhead
        · simp at h
      · exact ih [] k h
    · exact ih (cur ++ [ch]) k hk

/- ------------------------------------------------------------------ -/
/- Claim theorems.                                                    -/
/- ------------------------------------------------------------------ -/

/-- C9: for every raw string and separator, `Path::toKeys` yields only
non-empty segments; the empty string yields the empty segment sequence, and
a leading separator contributes no segment (interior and trailing separator
runs contribute no empty segments either, being an instance of the first
conjunct). -/
theorem C9_toKeys_segments_nonempty (sep : Char) (s : List Char) :
    (∀ k ∈ toKeys sep s, k ≠ []) ∧
    toKeys sep ([] : List Char) = [] ∧
    toKeys sep (sep :: s) = toKeys sep s := by
  refine ⟨fun k hk => toKeysGo_ne_nil sep s [] k hk, rfl, ?_⟩
  simp [toKeys, toKeysGo]

/-- C9 witness: splitting "/a//b/" on the slash yields the segment "a", which
is non-empty; the leading, doubled and trailing separators contribute no
empty segments. -/
theorem C9_toKeys_segments_nonempty_witness : (['a'] : List Char) ≠ [] :=
  (C9_toKeys_segments_nonempty '/' ['/', 'a', '/', '/', 'b', '/']).1 ['a'] (by decide)

/-- C1 is refuted by the code: in Multi storage mode a repeated cancel
faults.  Connect two callbacks (slots 0 and 1, upgrading the registry to
Multi mode), then disconnect slot 0 twice — `Connection::disconnect` never
invalidates its stored slot id, and `MultiImpl::disconnect` erases the
result of `find_if` without comparing it against `end()`, so the second
call erases the end iterator: undefined behaviour (`none`). -/
theorem C1_multi_double_cancel_faults :
    Option.bind
      (((((⟨0, none⟩ : Signal Nat String).connect (some cbOk) 0).1.connect
          (some cbOk) 1).1).disconnect 0)
      (fun s => s.disconnect 0) = none := rfl

/-- C3: `set(newData)` runs the recursive diff before swapping the root: if
the diff aborts with an exception (adapter `equal`/`get` or a callback), the
error propagates and the stored root is unchanged; if the diff completes,
the root becomes `newData`. -/
theorem C3_replace_diff_before_swap {Node E : Type} (tr : Trait Node E)
    (st : ObservableTree Node E) (newData : Node) :
    (∀ e, (ObservableTree.set tr st newData).2.1 = .error e →
      (ObservableTree.set tr st newData).1.root = st.root) ∧
    ((ObservableTree.set tr st newData).2.1 = .ok () →
      (ObservableTree.set tr st newData).1.root = newData) := by
  unfold ObservableTree.set
  split
  · exact ⟨fun e he => by simp at he, fun _ => rfl⟩
  · exact ⟨fun e _ => rfl, fun h => by simp at h⟩

/-- C3 witness: with an adapter whose `equal` throws, replacing root 1 by 2
over a registry tree with one registered path aborts with that exception and
leaves the stored root equal to 1. -/
theorem C3_replace_diff_before_swap_witness :
    (ObservableTree.set trThrow ⟨mgr1, 1, 0, 0⟩ 2).1.root = 1 :=
  (C3_replace_diff_before_swap trThrow ⟨mgr1, 1, 0, 0⟩ 2).1 (.exn "boom") rfl

/-- C8: registering at an empty path is an inert no-op — `createSignal`
returns no signal and creates no registry node, the composite registration
returns the inert handle, cancelling that handle does nothing, and a later
full replace behaves exactly as if the registration had never happened (so
the callback is never invoked). -/
theorem C8_empty_path_registration_inert {Node E : Type} (st : ObservableTree Node E)
    (cb : Option (CbF Node E)) (tr : Trait Node E) (x : Node) :
    st.modificationSignal [] = (st, none) ∧
    st.registerAt [] cb = (st, ⟨none, none⟩) ∧
    st.cancel ⟨none, none⟩ = some st ∧
    ObservableTree.set tr (st.registerAt [] cb).1 x = ObservableTree.set tr st x :=
  ⟨rfl, rfl, rfl, rfl⟩

/-- C4: when the recursion into a child's subtree reports a change, the entry
processing appends the child registry's firing with (oldChild, newChild)
after the deeper events (bottom-up order) and performs no equality query at
that level (the log is passed through untouched); and on the spec's concrete
scenario — registrations at a/b, a/b/c and a/d, a replace changing only the
a/b/c value — the diff fires a/b/c then a/b, nothing at a/d, and reports a
change, with equality queried only at a/b/c and a/d. -/
theorem C4_deeper_change_fires_bottom_up {Node E : Type} (tr : Trait Node E)
    (sig : Option (Signal Node E)) (pk : List String) (oldV newV : Node) :
    (∀ (child' : SignalMgr Node E) (evs : List (Event Node)) (eqs : List (Node × Node)),
      (entryAfterSub tr sig pk oldV newV (child', .ok true, evs, eqs)).2.2.2.2 = eqs ∧
      (entryAfterSub tr sig pk oldV newV (child', .ok true, evs, eqs)).2.2.2.1 =
        evs ++ (match sig with
                | some s => (s.fire pk oldV newV).2
                | none => [])) ∧
    (SignalMgr.onChanged trFix mgrFix [] 1 2).2.2.1 =
      [⟨["a", "b", "c"], 12, 100, 101⟩, ⟨["a", "b"], 11, 30, 31⟩] ∧
    (SignalMgr.onChanged trFix mgrFix [] 1 2).2.2.2 = [(100, 101), (50, 50)] ∧
    (SignalMgr.onChanged trFix mgrFix [] 1 2).2.1 = .ok true := by
  refine ⟨?_, rfl, rfl, rfl⟩
  intro child' evs eqs
  cases sig with
  | none => exact ⟨rfl, by simp [entryAfterSub]⟩
  | some s =>
    unfold entryAfterSub
    rcases hf : s.fire pk oldV newV with ⟨r, fevs⟩
    cases r <;> simp [hf]

/-- Naive spec-level deep walk over two empty roots reports no change and
fires nothing, given that empty values have only empty, mutually equal
sub-values. -/
theorem specNaiveWalk_empty {Node E : Type} (tr : Trait Node E)
    (Hsub : ∀ x kk, tr.empty x = true → ∃ v, tr.get x kk = .ok v ∧ tr.empty v = true)
    (Heq : ∀ x y, tr.empty x = true → tr.empty y = true → tr.equal x y = .ok true)
    (m : SignalMgr Node E) :
    ∀ (p : List String) (a b : Node), tr.empty a = true → tr.empty b = true →
      specNaiveWalk tr m p a b = (.ok false, []) := by
  induction m with
  | nil => intro p a b _ _; rfl
  | cons k sig child rest ihc ihr =>
    intro p a b ha hb
    obtain ⟨oldV, hg1, he1⟩ := Hsub a k ha
    obtain ⟨newV, hg2, he2⟩ := Hsub b k hb
    have hcc := ihc (p ++ [k]) oldV newV he1 he2
    have hrr := ihr p a b ha hb
    have heqv := Heq oldV newV he1 he2
    simp [specNaiveWalk, hg1, hg2, hcc, heqv, hrr]

/-- C6: when both the old and the new root are adapter-empty, the diff skips
all children — it returns the tree untouched, fires nothing, queries no
equality and reports no change — and, provided empty values have only empty,
mutually equal sub-values, the naive full deep walk produces the same
outcome: no change reported and no callback fired at any registered path. -/
theorem C6_empty_root_short_circuit {Node E : Type} (tr : Trait Node E)
    (m : SignalMgr Node E) (p : List String) (a b : Node)
    (Hsub : ∀ x kk, tr.empty x = true → ∃ v, tr.get x kk = .ok v ∧ tr.empty v = true)
    (Heq : ∀ x y, tr.empty x = true → tr.empty y = true → tr.equal x y = .ok true)
    (ha : tr.empty a = true) (hb : tr.empty b = true) :
    SignalMgr.onChanged tr m p a b = (m, .ok false, [], []) ∧
    specNaiveWalk tr m p a b = (.ok false, []) :=
  ⟨by simp [SignalMgr.onChanged, ha, hb],
   specNaiveWalk_empty tr Hsub Heq m p a b ha hb⟩

/-- C6 witness: over the adapter whose every sub-value of the empty value 0
is again 0, diffing two empty roots across the scenario registry tree (with
registrations three levels deep) touches nothing, and the naive walk agrees. -/
theorem C6_empty_root_short_circuit_witness :
    SignalMgr.onChanged trZero mgrFix [] 0 0 = (mgrFix, .ok false, [], []) ∧
    specNaiveWalk trZero mgrFix [] 0 0 = (.ok false, []) :=
  C6_empty_root_short_circuit trZero mgrFix [] 0 0
    (fun x kk hx => ⟨0, rfl, rfl⟩)
    (fun x y hx hy => by
      simp only [trZero, Nat.beq_eq_true_eq] at hx hy
      subst hx; subst hy; rfl)
    rfl rfl

/-- Every event produced by dispatching a registry is tagged with the path
that registry is registered at. -/
theorem slotsFire_events_path {Node E : Type} (p : List String) (o n : Node) :
    ∀ (l : List (Option (SlotVal Node E))), ∀ e ∈ (slotsFire p o n l).2, e.path = p := by
  intro l
  induction l with
  | nil => intro e he; simp [slotsFire] at he
  | cons x rest ih =>
    intro e he
    rcases x with _ | sv
    · simp [slotsFire] at he
    · rcases hfn : sv.fn with _ | f
      · simp [slotsFire, hfn] at he
      · rcases hr : f o n with e2 | u
        · simp [slotsFire, hfn, hr] at he
          subst he; rfl
        · simp [slotsFire, hfn, hr] at he
          rcases he with h | h
          · subst h; rfl
          · exact ih e h

/-- Dispatch tags every event with the registry's path. -/
theorem fire_events_path {Node E : Type} (s : Signal Node E) (p : List String)
    (o n : Node) : ∀ e ∈ (s.fire p o n).2, e.path = p := by
  intro e he
  unfold Signal.fire at he
  rcases himpl : s.impl with _ | i
  · rw [himpl] at he; simp at he
  · rcases i with xx | l
    · rw [himpl] at he
      rcases xx with _ | sv
      · simp [singleFire] at he
      · rcases hfn : sv.fn with _ | f
        · simp [singleFire, hfn] at he
        · rcases hr : f o n with e2 | u <;>
            simp [singleFire, hfn, hr] at he <;> (subst he; rfl)
    · rw [himpl] at he
      exact slotsFire_events_path p o n l e he

/-- The targeted diff without a resolvable signal fires nothing and reports
no change. -/
theorem onChangedAt_of_no_signal {Node E : Type} (tr : Trait Node E)
    (m : SignalMgr Node E) (p : List String) (o n : Node)
    (h : m.getSignal p = none) :
    SignalMgr.onChangedAt tr m p o n = (.ok false, []) := by
  unfold SignalMgr.onChangedAt
  rw [h]

/-- The targeted diff with a resolved signal and equal values fires nothing. -/
theorem onChangedAt_of_equal {Node E : Type} (tr : Trait Node E)
    (m : SignalMgr Node E) (p : List String) (o n : Node) (s : Signal Node E)
    (hs : m.getSignal p = some s) (he : tr.equal o n = .ok true) :
    SignalMgr.onChangedAt tr m p o n = (.ok false, []) := by
  unfold SignalMgr.onChangedAt
  rw [hs, he]

/-- The targeted diff with a resolved signal and unequal values fires exactly
that signal's dispatch. -/
theorem onChangedAt_of_unequal {Node E : Type} (tr : Trait Node E)
    (m : SignalMgr Node E) (p : List String) (o n : Node) (s : Signal Node E)
    (hs : m.getSignal p = some s) (he : tr.equal o n = .ok false) :
    (SignalMgr.onChangedAt tr m p o n).2 = (s.fire p o n).2 := by
  unfold SignalMgr.onChangedAt
  rw [hs, he]
  rcases hf : s.fire p o n with ⟨r, fevs⟩
  cases r <;> simp [hf]

/-- The targeted diff throwing on the equality query fires nothing. -/
theorem onChangedAt_of_equal_throw {Node E : Type} (tr : Trait Node E)
    (m : SignalMgr Node E) (p : List String) (o n : Node) (s : Signal Node E)
    (e : E) (hs : m.getSignal p = some s) (he : tr.equal o n = .error e) :
    SignalMgr.onChangedAt tr m p o n = (.error (.exn e), []) := by
  unfold SignalMgr.onChangedAt
  rw [hs, he]

/-- `set(path, newNode)` never modifies the registry tree. -/
theorem setAt_mgr_eq {Node E : Type} (tr : Trait Node E)
    (st : ObservableTree Node E) (p : List String) (x : Node) :
    (ObservableTree.setAt tr st p x).1.mgr = st.mgr := by
  unfold ObservableTree.setAt
  split
  · rfl
  · split <;> rfl

/-- The events of `set(path, newNode)` are the events of the targeted diff
on the extracted old sub-value (none if the extraction throws). -/
theorem setAt_evs_eq {Node E : Type} (tr : Trait Node E)
    (st : ObservableTree Node E) (p : List String) (x oldSub : Node)
    (hg : tr.getPath st.root p = .ok oldSub) :
    (ObservableTree.setAt tr st p x).2.2 = (st.mgr.onChangedAt tr p oldSub x).2 := by
  unfold ObservableTree.setAt
  rw [hg]
  rcases h2 : st.mgr.onChangedAt tr p oldSub x with ⟨r, evs⟩
  cases r <;> simp [h2]

/-- `set(path, newNode)` fires nothing when the old sub-value extraction
throws. -/
theorem setAt_evs_of_getPath_throw {Node E : Type} (tr : Trait Node E)
    (st : ObservableTree Node E) (p : List String) (x : Node) (e : E)
    (hg : tr.getPath st.root p = .error e) :
    (ObservableTree.setAt tr st p x).2.2 = [] := by
  unfold ObservableTree.setAt
  rw [hg]

/-- C7: `set(path, newValue)` fires only the registry registered at exactly
`path`: every fired event carries that path, the registry tree itself is
never modified, the targeted diff is a no-op if no signal resolves along the
path, and when a signal does resolve the fired events are exactly that one
registry's dispatch when the adapter reports the old and new sub-values
unequal, and nothing when it reports them equal — registries at proper
descendants, ancestors or any other path never fire during the call. -/
theorem C7_targeted_replace_fires_exactly {Node E : Type} (tr : Trait Node E)
    (st : ObservableTree Node E) (p : List String) (newNode : Node) :
    (∀ e ∈ (ObservableTree.setAt tr st p newNode).2.2, e.path = p) ∧
    (ObservableTree.setAt tr st p newNode).1.mgr = st.mgr ∧
    (st.mgr.getSignal p = none → (ObservableTree.setAt tr st p newNode).2.2 = []) ∧
    (∀ s oldSub, st.mgr.getSignal p = some s → tr.getPath st.root p = .ok oldSub →
      (tr.equal oldSub newNode = .ok true →
        (ObservableTree.setAt tr st p newNode).2.2 = []) ∧
      (tr.equal oldSub newNode = .ok false →
        (ObservableTree.setAt tr st p newNode).2.2 = (s.fire p oldSub newNode).2)) := by
  refine ⟨?_, setAt_mgr_eq tr st p newNode, ?_, ?_⟩
  · intro e he
    rcases hg : tr.getPath st.root p with err | oldSub
    · rw [setAt_evs_of_getPath_throw tr st p newNode err hg] at he
      simp at he
    · rw [setAt_evs_eq tr st p newNode oldSub hg] at he
      rcases hs : st.mgr.getSignal p with _ | s
      · rw [onChangedAt_of_no_signal tr st.mgr p oldSub newNode hs] at he
        simp at he
      · rcases heq : tr.equal oldSub newNode with e2 | bv
        · rw [onChangedAt_of_equal_throw tr st.mgr p oldSub newNode s e2 hs heq] at he
          simp at he
        · cases bv
          · rw [onChangedAt_of_unequal tr st.mgr p oldSub newNode s hs heq] at he
            exact fire_events_path s p oldSub newNode e he
          · rw [onChangedAt_of_equal tr st.mgr p oldSub newNode s hs heq] at he
            simp at he
  · intro hs
    rcases hg : tr.getPath st.root p with err | oldSub
    · exact setAt_evs_of_getPath_throw tr st p newNode err hg
    · rw [setAt_evs_eq tr st p newNode oldSub hg,
        onChangedAt_of_no_signal tr st.mgr p oldSub newNode hs]
  · intro s oldSub hs hg
    constructor
    · intro heq
      rw [setAt_evs_eq tr st p newNode oldSub hg,
        onChangedAt_of_equal tr st.mgr p oldSub newNode s hs heq]
    · intro heq
      rw [setAt_evs_eq tr st p newNode oldSub hg]
      exact onChangedAt_of_unequal tr st.mgr p oldSub newNode s hs heq

/-- Processing an entry whose subtree reported no change, over a pair the
adapter considers equal, fires nothing: only the equality query is logged
(and a disconnected signal reference is dropped). -/
theorem entryAfterSub_equal_eq {Node E : Type} (tr : Trait Node E) (pk : List String)
    (oldV newV : Node) (hV : tr.equal oldV newV = .ok true)
    (sig : Option (Signal Node E)) (child' : SignalMgr Node E)
    (evs : List (Event Node)) (eqs : List (Node × Node)) :
    entryAfterSub tr sig pk oldV newV (child', .ok false, evs, eqs) =
      ((match sig with
        | some s => if s.connected then some s else none
        | none => none), child', .ok false, evs, eqs ++ [(oldV, newV)]) := by
  cases sig with
  | none => simp [entryAfterSub, hV]
  | some s =>
    simp only [entryAfterSub, hV]
    split <;> simp

/-- Diffing two structurally equal documents fires no callback and reports
no change (or aborts with an exception having fired nothing), provided the
adapter's equality is a congruence for its extraction. -/
theorem onChangedGo_of_equal {Node E : Type} (tr : Trait Node E)
    (Hcong : ∀ x y kk vx vy, tr.equal x y = .ok true → tr.get x kk = .ok vx →
      tr.get y kk = .ok vy → tr.equal vx vy = .ok true) :
    ∀ (m : SignalMgr Node E) (p : List String) (a b : Node),
      tr.equal a b = .ok true →
      (onChangedGo tr m p a b).2.2.1 = [] ∧
      ((onChangedGo tr m p a b).2.1 = .ok false ∨
        ∃ err, (onChangedGo tr m p a b).2.1 = .error err) := by
  intro m
  induction m with
  | nil => intro p a b _; exact ⟨rfl, .inl rfl⟩
  | cons k sig child rest ihc ihr =>
    intro p a b hab
    rcases hg1 : tr.get a k with e1 | oldV
    · exact ⟨by simp [onChangedGo, hg1], .inr ⟨.exn e1, by simp [onChangedGo, hg1]⟩⟩
    rcases hg2 : tr.get b k with e2 | newV
    · exact ⟨by simp [onChangedGo, hg1, hg2],
        .inr ⟨.exn e2, by simp [onChangedGo, hg1, hg2]⟩⟩
    have hV : tr.equal oldV newV = .ok true := Hcong a b k oldV newV hab hg1 hg2
    obtain ⟨hsE, hsB⟩ :
        (if !tr.empty oldV || !tr.empty newV then onChangedGo tr child (p ++ [k]) oldV newV
          else (child, Except.ok false, [], [])).2.2.1 = [] ∧
        ((if !tr.empty oldV || !tr.empty newV then onChangedGo tr child (p ++ [k]) oldV newV
          else (child, Except.ok false, [], [])).2.1 = .ok false ∨
          ∃ err, (if !tr.empty oldV || !tr.empty newV then
              onChangedGo tr child (p ++ [k]) oldV newV
            else (child, Except.ok false, [], [])).2.1 = .error err) := by
      split
      · exact ihc (p ++ [k]) oldV newV hV
      · exact ⟨rfl, .inl rfl⟩
    obtain ⟨hrE, hrB⟩ := ihr p a b hab
    rcases hs : (if !tr.empty oldV || !tr.empty newV then
        onChangedGo tr child (p ++ [k]) oldV newV
      else (child, Except.ok false, [], [])) with ⟨child', r, evs, eqs⟩
    rw [hs] at hsE hsB
    simp only at hsE hsB
    subst hsE
    rcases hrr : onChangedGo tr rest p a b with ⟨rest', r2, evs2, eqs2⟩
    rw [hrr] at hrE hrB
    simp only at hrE hrB
    subst hrE
    rcases hsB with hsB | ⟨errS, hsB⟩
    · subst hsB
      rcases hrB with hb | ⟨e2, hb⟩
      · subst hb
        refine ⟨?_, .inl ?_⟩ <;>
        · simp only [onChangedGo, hg1, hg2]
          rw [hs]
          simp [entryAfterSub_equal_eq tr (p ++ [k]) oldV newV hV, hrr]
      · subst hb
        refine ⟨?_, .inr ⟨e2, ?_⟩⟩ <;>
        · simp only [onChangedGo, hg1, hg2]
          rw [hs]
          simp [entryAfterSub_equal_eq tr (p ++ [k]) oldV newV hV, hrr]
    · subst hsB
      refine ⟨?_, .inr ⟨errS, ?_⟩⟩ <;>
      · simp only [onChangedGo, hg1, hg2]
        rw [hs]
        simp [entryAfterSub]

/-- C5: idempotence of replace.  If the adapter's equality is a congruence
for its extraction, a completed `replace(x1)` followed by `replace(x2)` with
`x2` structurally equal to `x1` fires no callback on the second call, at any
registered path. -/
theorem C5_replace_idempotent {Node E : Type} (tr : Trait Node E)
    (st0 : ObservableTree Node E) (x1 x2 : Node)
    (Hcong : ∀ x y kk vx vy, tr.equal x y = .ok true → tr.get x kk = .ok vx →
      tr.get y kk = .ok vy → tr.equal vx vy = .ok true)
    (h1 : (ObservableTree.set tr st0 x1).2.1 = .ok ())
    (heq : tr.equal x1 x2 = .ok true) :
    (ObservableTree.set tr (ObservableTree.set tr st0 x1).1 x2).2.2 = [] := by
  rcases hd : st0.mgr.onChanged tr [] st0.root x1 with ⟨m', r, evs, eqs⟩
  cases r with
  | error e =>
    exfalso
    unfold ObservableTree.set at h1
    rw [hd] at h1
    simp at h1
  | ok b =>
    have hst1 : (ObservableTree.set tr st0 x1).1 =
        { st0 with mgr := m', root := x1 } := by
      unfold ObservableTree.set
      rw [hd]
    rw [hst1]
    unfold ObservableTree.set
    rcases hd2 : SignalMgr.onChanged tr
        ({ st0 with mgr := m', root := x1 } : ObservableTree Node E).mgr []
        ({ st0 with mgr := m', root := x1 } : ObservableTree Node E).root x2
      with ⟨m2, r2, evs2, eqs2⟩
    have hevs2 : evs2 = [] := by
      unfold SignalMgr.onChanged at hd2
      simp only at hd2
      split at hd2
      · have hev := (onChangedGo_of_equal tr Hcong m' [] x1 x2 heq).1
        rw [hd2] at hev
        exact hev
      · simp only [Prod.mk.injEq] at hd2
        exact (hd2.2.2.1).symm
    cases r2 <;> simp [hevs2]

/-- C5 witness: replacing root 5 by 7 (one registered path, one callback
fired) and then replacing 7 by the structurally equal 7 fires nothing on the
second call. -/
theorem C5_replace_idempotent_witness :
    (ObservableTree.set trId (ObservableTree.set trId ⟨mgr1, 5, 0, 0⟩ 7).1 7).2.2 = [] :=
  C5_replace_idempotent trId ⟨mgr1, 5, 0, 0⟩ 7 7
    (fun x y kk vx vy h hx hy => by simp_all [trId]) rfl rfl

/-- Erasing a found slot from a Multi list only removes elements. -/
theorem multiDisconnect_mem {Node E : Type} {id : Nat} :
    ∀ {l l' : List (Option (SlotVal Node E))}, multiDisconnect l id = some l' →
      ∀ x ∈ l', x ∈ l := by
  intro l
  induction l with
  | nil => intro l' h; simp [multiDisconnect] at h
  | cons y rest ih =>
    intro l' h x hx
    unfold multiDisconnect at h
    split at h
    · cases h
      exact List.mem_cons_of_mem y hx
    · rcases hmd : multiDisconnect rest id with _ | r
      · rw [hmd] at h; simp at h
      · rw [hmd] at h
        obtain rfl : y :: r = l' := Option.some.inj h
        rcases List.mem_cons.1 hx with h1 | h1
        · subst h1; exact List.mem_cons_self _ _
        · exact List.mem_cons_of_mem y (ih hmd x h1)

/-- Every signal state reachable through the public `connect` / `disconnect`
operations satisfies the storage invariant. -/
theorem sigReachable_good {Node E : Type} :
    ∀ {q : Signal Node E × Nat}, SigReachable q → SigGood q.1 := by
  intro q h
  induction h with
  | init sd c =>
    exact ⟨fun l hl => by simp at hl, fun o sv ho => by simp at ho⟩
  | step hp hs ih =>
    cases hs with
    | connect s c sl =>
      cases sl with
      | none => exact ih
      | some f =>
        rcases himpl : s.impl with _ | i
        · refine ⟨fun l hl => ?_, fun o sv ho hosv => ?_⟩
          · simp [Signal.connect, himpl, Impl.connect] at hl
          · simp [Signal.connect, himpl, Impl.connect] at ho
            rw [← ho] at hosv
            cases hosv
            simp
        · rcases i with o0 | l0
          · rcases o0 with _ | sv0
            · refine ⟨fun l hl => ?_, fun o sv ho hosv => ?_⟩
              · simp [Signal.connect, himpl, Impl.connect, Impl.isSingle,
                  Impl.connected] at hl
              · simp [Signal.connect, himpl, Impl.connect, Impl.isSingle,
                  Impl.connected] at ho
                rw [← ho] at hosv
                cases hosv
                simp
            · have hfn : sv0.fn.isSome := ih.2 (some sv0) sv0 himpl rfl
              obtain ⟨f0, hf0⟩ := Option.isSome_iff_exists.1 hfn
              refine ⟨fun l hl => ?_, fun o sv ho hosv => ?_⟩
              · simp [Signal.connect, himpl, Impl.connect, Impl.isSingle,
                  Impl.connected, Impl.stealSlots] at hl
                subst hl
                intro x hx
                rcases List.mem_cons.1 hx with h1 | h1
                · exact ⟨sv0, f0, h1, hf0⟩
                · simp only [List.mem_singleton] at h1
                  exact ⟨⟨c, some f⟩, f, h1, rfl⟩
              · simp [Signal.connect, himpl, Impl.connect, Impl.isSingle,
                  Impl.connected, Impl.stealSlots] at ho
          · refine ⟨fun l hl => ?_, fun o sv ho hosv => ?_⟩
            · simp [Signal.connect, himpl, Impl.connect, Impl.isSingle] at hl
              subst hl
              intro x hx
              rcases List.mem_append.1 hx with h1 | h1
              · exact ih.1 l0 himpl x h1
              · simp only [List.mem_singleton] at h1
                exact ⟨⟨c, some f⟩, f, h1, rfl⟩
            · simp [Signal.connect, himpl, Impl.connect, Impl.isSingle] at ho
    | disconnect s c id s' hd =>
      rcases himpl : s.impl with _ | i
      · have hds : s.disconnect id = some s := by
          unfold Signal.disconnect; rw [himpl]
        rw [hds] at hd
        obtain rfl : s = s' := Option.some.inj hd
        exact ih
      · rcases i with o0 | l0
        · have hds : s.disconnect id = some
              { s with impl := some (.single (if slotPtrMatches o0 id then none else o0)) } := by
            unfold Signal.disconnect; rw [himpl]
          rw [hds] at hd
          obtain rfl := Option.some.inj hd
          refine ⟨fun l hl => ?_, fun o sv ho hosv => ?_⟩
          · simp only [Option.some.injEq] at hl
            split at hl <;> cases hl
          · simp only [Option.some.injEq, Impl.single.injEq] at ho
            rw [← ho] at hosv
            split at hosv
            · cases hosv
            · exact ih.2 o0 sv himpl hosv
        · have hds : s.disconnect id =
              (multiDisconnect l0 id).map
                (fun l' => { s with impl := some (.multi l') }) := by
            unfold Signal.disconnect; rw [himpl]
          rw [hds] at hd
          rcases hmd : multiDisconnect l0 id with _ | l2
          · rw [hmd] at hd; simp at hd
          · rw [hmd] at hd
            obtain rfl := Option.some.inj hd
            refine ⟨fun l hl => ?_, fun o sv ho hosv => ?_⟩
            · simp only [Option.some.injEq, Impl.multi.injEq] at hl
              subst hl
              intro x hx
              exact ih.1 l0 himpl x (multiDisconnect_mem hmd x hx)
            · simp at ho

/-- Multi-mode dispatch over a list of non-null slots never faults. -/
theorem slotsFire_no_fault {Node E : Type} (p : List String) (a b : Node) :
    ∀ (l : List (Option (SlotVal Node E))),
      (∀ x ∈ l, ∃ sv f, x = some sv ∧ sv.fn = some f) →
      (slotsFire p a b l).1 ≠ .error .fault := by
  intro l
  induction l with
  | nil => intro _; simp [slotsFire]
  | cons x rest ih =>
    intro hgood
    obtain ⟨sv, f, hx, hfn⟩ := hgood x (List.mem_cons_self x rest)
    subst hx
    rcases hr : f a b with e2 | u
    · simp [slotsFire, hfn, hr]
    · simp only [slotsFire, hfn, hr]
      exact ih (fun y hy => hgood y (List.mem_cons_of_mem _ hy))

/-- Dispatch from a signal satisfying the storage invariant never faults
(Single mode is guarded in the source and needs no invariant). -/
theorem fire_no_fault {Node E : Type} (s : Signal Node E) (hg : SigGood s)
    (p : List String) (a b : Node) : (s.fire p a b).1 ≠ .error .fault := by
  rcases himpl : s.impl with _ | i
  · simp [Signal.fire, himpl]
  · rcases i with o | l
    · rcases o with _ | sv
      · simp [Signal.fire, himpl, singleFire]
      · rcases hfn : sv.fn with _ | f
        · simp [Signal.fire, himpl, singleFire, hfn]
        · rcases hr : f a b with e2 | u <;>
            simp [Signal.fire, himpl, singleFire, hfn, hr]
    · simp only [Signal.fire, himpl]
      exact slotsFire_no_fault p a b l (hg.1 l himpl)

/-- C10: in every reachable registry state, `connect` given an empty callback
stores nothing, every slot stored in a Multi-mode list is a non-null pointer
to a non-empty callback, and dispatch never invokes a null callback — it
never faults (it can only propagate a user exception). -/
theorem C10_multi_slots_never_null {Node E : Type} (s : Signal Node E) (c : Nat)
    (h : SigReachable (s, c)) :
    (∀ (s2 : Signal Node E) (c2 : Nat), s2.connect none c2 = (s2, none)) ∧
    (∀ l, s.impl = some (.multi l) → ∀ x ∈ l, ∃ sv f, x = some sv ∧ sv.fn = some f) ∧
    ∀ (p : List String) (a b : Node), (s.fire p a b).1 ≠ .error .fault :=
  ⟨fun _ _ => rfl, (sigReachable_good h).1,
    fun p a b => fire_no_fault s (sigReachable_good h) p a b⟩

/-- C10 witness: the Multi-mode registry reached by connecting two callbacks
dispatches without fault. -/
theorem C10_multi_slots_never_null_witness :
    (((((⟨0, none⟩ : Signal Nat String).connect (some cbOk) 0).1.connect
        (some cbOk) 1).1).fire [] 1 2).1 ≠ .error .fault :=
  (C10_multi_slots_never_null _ 2
    (SigReachable.step
      (SigReachable.step (SigReachable.init 0 0) (SigStep.connect _ 0 (some cbOk)))
      (SigStep.connect _ 1 (some cbOk)))).2.2 [] 1 2

/-- The linear registry branch created by registering a single path: one
node per segment, a signal only at the terminal node. -/
def chain {Node E : Type} (k : String) (ks : List String) (s : Signal Node E) :
    SignalMgr Node E :=
  match ks with
  | [] => .cons k (some s) .nil .nil
  | k2 :: ks2 => .cons k none (chain k2 ks2 s) .nil

theorem newBranch_nil {Node E : Type} (ks : List String) :
    ∀ (k : String) (c : Nat),
      SignalMgr.newBranch k ks c (SignalMgr.nil : SignalMgr Node E) =
        (chain k ks ⟨c, none⟩, ⟨c, none⟩, c + 1) := by
  induction ks with
  | nil => intro k c; rfl
  | cons k2 ks2 ih => intro k c; simp [SignalMgr.newBranch, chain, ih k2]

theorem createSignalGo_chain {Node E : Type} (ks : List String) :
    ∀ (k : String) (s : Signal Node E) (c : Nat),
      SignalMgr.createSignalGo (chain k ks s) k ks c = (chain k ks s, s, c) := by
  induction ks with
  | nil => intro k s c; simp [SignalMgr.createSignalGo, chain]
  | cons k2 ks2 ih => intro k s c; simp [SignalMgr.createSignalGo, chain, ih k2]

theorem setSignalAt_chain {Node E : Type} (ks : List String) :
    ∀ (k : String) (s s' : Signal Node E),
      SignalMgr.setSignalAt (chain k ks s) k ks s' = chain k ks s' := by
  induction ks with
  | nil => intro k s s'; simp [SignalMgr.setSignalAt, chain]
  | cons k2 ks2 ih => intro k s s'; simp [SignalMgr.setSignalAt, chain, ih k2]

theorem getSignalGo_chain {Node E : Type} (ks : List String) :
    ∀ (k : String) (s : Signal Node E),
      SignalMgr.getSignalGo (chain k ks s) k ks = some s := by
  induction ks with
  | nil => intro k s; simp [SignalMgr.getSignalGo, chain]
  | cons k2 ks2 ih => intro k s; simp [SignalMgr.getSignalGo, chain, ih k2]

/-- C2: for every non-empty path, the handle issued by the first registration
at that path stays valid and independently cancellable after a second
registration upgrades the registry to Multi mode: cancelling the first
handle succeeds (no fault), removes exactly the first callback — the
registry then stores exactly the second slot — and a subsequent dispatch of
that registry invokes only the second callback. -/
theorem C2_first_handle_survives_upgrade {Node E : Type} (k : String)
    (ks : List String) (f1 f2 : CbF Node E) (r0 : Node) (n0 s0 : Nat) :
    ∃ st3 : ObservableTree Node E,
      (((((⟨.nil, r0, n0, s0⟩ : ObservableTree Node E).registerAt (k :: ks)
            (some f1)).1).registerAt (k :: ks) (some f2)).1).cancel
          (((⟨.nil, r0, n0, s0⟩ : ObservableTree Node E).registerAt (k :: ks)
            (some f1)).2) = some st3 ∧
      st3.mgr.getSignal (k :: ks) =
        some ⟨s0, some (.multi [some ⟨n0 + 1, some f2⟩])⟩ ∧
      ∀ (q : List String) (o n : Node),
        ((⟨s0, some (.multi [some ⟨n0 + 1, some f2⟩])⟩ : Signal Node E).fire q o n).2 =
          [⟨q, n0 + 1, o, n⟩] := by
  have h1 : (⟨.nil, r0, n0, s0⟩ : ObservableTree Node E).registerAt (k :: ks)
      (some f1) =
      (⟨chain k ks ⟨s0, some (.single (some ⟨n0, some f1⟩))⟩, r0, n0 + 1, s0 + 1⟩,
        ⟨some (k :: ks, s0), some n0⟩) := by
    simp [ObservableTree.registerAt, SignalMgr.createSignalGo, newBranch_nil,
      Signal.connect, Impl.connect, setSignalAt_chain]
  have h2 : ((⟨chain k ks ⟨s0, some (.single (some ⟨n0, some f1⟩))⟩, r0,
        n0 + 1, s0 + 1⟩ : ObservableTree Node E)).registerAt (k :: ks) (some f2) =
      (⟨chain k ks
          ⟨s0, some (.multi [some ⟨n0, some f1⟩, some ⟨n0 + 1, some f2⟩])⟩,
        r0, n0 + 2, s0 + 1⟩,
        ⟨some (k :: ks, s0), some (n0 + 1)⟩) := by
    simp only [ObservableTree.registerAt, createSignalGo_chain, Signal.connect,
      Impl.connect, Impl.isSingle, Impl.connected, Impl.stealSlots,
      setSignalAt_chain]
    norm_num [List.cons_append]
  have h3 : ((⟨chain k ks
        ⟨s0, some (.multi [some ⟨n0, some f1⟩, some ⟨n0 + 1, some f2⟩])⟩,
      r0, n0 + 2, s0 + 1⟩ : ObservableTree Node E)).cancel
        ⟨some (k :: ks, s0), some n0⟩ =
      some ⟨chain k ks ⟨s0, some (.multi [some ⟨n0 + 1, some f2⟩])⟩, r0,
        n0 + 2, s0 + 1⟩ := by
    simp [ObservableTree.cancel, getSignalGo_chain, Signal.disconnect,
      multiDisconnect, slotPtrMatches, setSignalAt_chain]
  refine ⟨⟨chain k ks ⟨s0, some (.multi [some ⟨n0 + 1, some f2⟩])⟩, r0,
      n0 + 2, s0 + 1⟩, ?_, ?_, ?_⟩
  · rw [h1]
    simp only
    rw [h2]
    simp only
    exact h3
  · simp [SignalMgr.getSignal, getSignalGo_chain]
  · intro q o n
    rcases hr : f2 o n with e2 | u <;>
      simp [Signal.fire, slotsFire, hr]

/-- C7 witness: with one registry at path "x" and root 5, the targeted
replace by 6 fires exactly that registry's dispatch. -/
theorem C7_targeted_replace_fires_exactly_witness :
    (ObservableTree.setAt trId ⟨mgr1, 5, 0, 0⟩ ["x"] 6).2.2 =
      ((⟨0, some (.single (some ⟨0, some cbOk⟩))⟩ : Signal Nat String).fire
        ["x"] 5 6).2 :=
  ((C7_targeted_replace_fires_exactly trId ⟨mgr1, 5, 0, 0⟩ ["x"] 6).2.2.2
    ⟨0, some (.single (some ⟨0, some cbOk⟩))⟩ 5 rfl rfl).2 rfl

end OTree
